import Mathlib

/-!
Verification of the raster-to-G-code conversion pipeline of the G2Mark
laser-engraving application.  The definitions below are shallow embeddings of
the Python functions in `gcode_generator.py` and `sketching_stage.py`:

* `scanRow` / `scanRows` embed the scanline run extractor in
  `GCodeGenerator.generate_instructions_from_image` (lines 64-119);
* `binarizeCell` / `binarize` embed the thresholding `img_array < 128`
  (line 53);
* `generate_instructions_from_image` embeds the whole extractor including the
  `try/except` that returns `None` on any image-loading failure (lines 40-130),
  with the fallible image load modelled as an `Except` input;
* `pixel_to_mm_rel`, `posLine`, `engraveLine`, `instructionGcode` and
  `convert_instructions_to_gcode` embed
  `GCodeGenerator.convert_instructions_to_gcode` (lines 246-316);
* `fmt3` models Python's fixed-point formatting `f"{x:.3f}"` on the exact
  rational values the pipeline produces;
* `pyInt`, `pixels_per_mm`, `mm_to_pixel`, `power_from_percent` and
  `generate_gcode_flow` embed the origin/power conversion and control flow of
  `SketchingStage.generate_gcode` (lines 986-1055);
* `apply_color_flip` and the two `export_*_flip` steps embed
  `SketchingStage._apply_color_flip` (`255 - img_array`) and its call sites in
  the PostScript and fallback export paths.

Machine integers are modelled as `Nat`/`Int`; the millimetre arithmetic that
Python performs on floats is modelled exactly over `ℚ` (the pipeline only ever
multiplies integer pixel counts by the constant 0.072 = 9/125, for which the
3-decimal rendering of the float computation and of the exact rational
coincide).
-/

namespace G2Mark

/-- A raster instruction `(from, to, power, speed)` exactly as built by the
extractor: `from`/`to` are `(col, row)` pixel pairs, `to.col` is exclusive. -/
abbrev Instr := (Nat × Nat) × (Nat × Nat) × Nat × Nat

/-- The `from` coordinate of an instruction. -/
def Instr.src (i : Instr) : Nat × Nat := i.1

/-- The `to` coordinate of an instruction. -/
def Instr.dst (i : Instr) : Nat × Nat := i.2.1

/-- The laser power of an instruction. -/
def Instr.power (i : Instr) : Nat := i.2.2.1

/-- The travel speed of an instruction. -/
def Instr.speed (i : Instr) : Nat := i.2.2.2

/-- One step of the per-row scan of `generate_instructions_from_image`
(lines 73-115 of `gcode_generator.py`): `col` is the current column index and
the `Option Nat` is the `in_line`/`line_start` state (`some s` when inside a
run that started at column `s`).  On a black pixel a run is opened if none is
open; on a white pixel an open run `(s, col)` is closed (the source stores
`line_end = col_idx - 1` and emits `line_end + 1 = col`); a run still open at
the end of the row is closed at the row width (`line_end = len(row) - 1`,
emitting `line_end + 1 = len(row)`). -/
def scanRowGo : List Bool → Nat → Option Nat → List (Nat × Nat)
  | [], _, none => []
  | [], col, some s => [(s, col)]
  | true :: rest, col, none => scanRowGo rest (col + 1) (some col)
  | true :: rest, col, some s => scanRowGo rest (col + 1) (some s)
  | false :: rest, col, none => scanRowGo rest (col + 1) none
  | false :: rest, col, some s => (s, col) :: scanRowGo rest (col + 1) none

/-- The runs of one binary row, as `(start, end_exclusive)` column pairs. -/
def scanRow (row : List Bool) : List (Nat × Nat) := scanRowGo row 0 none

/-- The instruction list of one row (lines 89-111): each run `(s, e)` of the
row becomes `((s, row_idx), (e, row_idx), laser_power, travel_speed)`. -/
def rowInstructions (row_idx laser_power travel_speed : Nat) (row : List Bool) :
    List Instr :=
  (scanRow row).map (fun r => ((r.1, row_idx), (r.2, row_idx), laser_power, travel_speed))

/-- The outer loop over rows (lines 64-119): a row contributes its instruction
list only when that list is non-empty (`if row_instructions:`). -/
def scanRows (row_idx laser_power travel_speed : Nat) :
    List (List Bool) → List (List Instr)
  | [] => []
  | row :: rest =>
      let ri := rowInstructions row_idx laser_power travel_speed row
      if ri.isEmpty then scanRows (row_idx + 1) laser_power travel_speed rest
      else ri :: scanRows (row_idx + 1) laser_power travel_speed rest

/-- The extractor on an already-binarized matrix. -/
def generate_instructions (m : List (List Bool)) (laser_power travel_speed : Nat) :
    List (List Instr) :=
  scanRows 0 laser_power travel_speed m

/-- Thresholding of one grayscale sample (line 53: `img_array < 128`). -/
def binarizeCell (v : Nat) : Bool := decide (v < 128)

/-- Thresholding of the whole grayscale image. -/
def binarize (img : List (List Nat)) : List (List Bool) :=
  img.map (List.map binarizeCell)

/-- `GCodeGenerator.generate_instructions_from_image` (lines 40-130): the
image load (`Image.open` + grayscale conversion) is modelled as an
`Except String` input; the surrounding `try/except` catches every error,
shows a message box and returns `None`, so an error input yields `none` and
the error message is discarded. -/
def generate_instructions_from_image (img : Except String (List (List Nat)))
    (laser_power travel_speed : Nat) : Option (List (List Instr)) :=
  match img with
  | Except.error _ => none
  | Except.ok a => some (generate_instructions (binarize a) laser_power travel_speed)

/-! ### Fixed-point formatting (`f"{x:.3f}"`) -/

/-- Decimal digit characters of a natural number, most significant first,
with a structural fuel argument (`n + 1` digits always suffice).  Models the
decimal integer rendering used by Python's string formatting. -/
def natDigitsAux : Nat → Nat → List Char
  | 0, _ => []
  | fuel + 1, n =>
      if n < 10 then [Nat.digitChar n]
      else natDigitsAux fuel (n / 10) ++ [Nat.digitChar (n % 10)]

/-- Decimal digit characters of a natural number. -/
def natDigits (n : Nat) : List Char := natDigitsAux (n + 1) n

/-- Decimal rendering of a natural number. -/
def natStr (n : Nat) : String := String.mk (natDigits n)

/-- The value of `q` in thousandths, rounded to the nearest integer.  For
every value the pipeline produces, `q * 1000` is already an integer, so no
rounding actually happens and this agrees exactly with Python's `f"{x:.3f}"`
on the corresponding float. -/
def ratMilli (q : ℚ) : ℤ := round (q * 1000)

/-- The sign of the rendering of a value of `m` thousandths. -/
def fmt3Sign (m : ℤ) : String := if m < 0 then "-" else ""

/-- The integer part of the rendering of a value of `m` thousandths. -/
def fmt3Int (m : ℤ) : String := String.mk (natDigits (m.natAbs / 1000))

/-- The three digits after the decimal point of the rendering of a value of
`m` thousandths. -/
def fmt3Frac (m : ℤ) : String :=
  String.mk [Nat.digitChar (m.natAbs / 100 % 10),
             Nat.digitChar (m.natAbs / 10 % 10),
             Nat.digitChar (m.natAbs % 10)]

/-- Fixed-point rendering of a value given as an integer number of
thousandths. -/
def fmt3Milli (m : ℤ) : String := fmt3Sign m ++ fmt3Int m ++ "." ++ fmt3Frac m

/-- Model of Python's `f"{x:.3f}"` on the exact rational value. -/
def fmt3 (q : ℚ) : String := fmt3Milli (ratMilli q)

/-! ### The instruction assembler (`convert_instructions_to_gcode`) -/

/-- `pixel_size_mm = 0.072` (line 258), as an exact rational. -/
def pixel_size_mm : ℚ := 9 / 125

/-- The pixel-to-millimetre transform inlined in lines 274-290 of
`convert_instructions_to_gcode`, with the scale factor as a parameter (the
source applies it with `scale = pixel_size_mm`): flip the row as
`image_height - 1 - row`, subtract the similarly flipped origin row and the
raw origin column, then multiply both axes by the scale. -/
def pixel_to_mm_rel (scale : ℚ) (originPx : ℤ × ℤ) (image_height_pixels : ℤ)
    (p : ℤ × ℤ) : ℚ × ℚ :=
  let flipped_y : ℤ := image_height_pixels - 1 - p.2
  let rel_x : ℤ := p.1 - originPx.1
  let rel_y : ℤ := flipped_y - (image_height_pixels - 1 - originPx.2)
  ((rel_x : ℚ) * scale, (rel_y : ℚ) * scale)

/-- The positioning move of one instruction (line 298):
`f"G1 X{from_x_mm:.3f} Y{from_y_mm:.3f} S{power}"`. -/
def posLine (originPx : ℤ × ℤ) (h : ℤ) (i : Instr) : String :=
  let f := pixel_to_mm_rel pixel_size_mm originPx h ((i.src.1 : ℤ), (i.src.2 : ℤ))
  "G1 X" ++ fmt3 f.1 ++ " Y" ++ fmt3 f.2 ++ " S" ++ natStr i.power

/-- The engraving move of one instruction (line 304):
`f"G1 X{to_x_mm:.3f} Y{to_y_mm:.3f} F{speed} S{power}"`. -/
def engraveLine (originPx : ℤ × ℤ) (h : ℤ) (i : Instr) : String :=
  let t := pixel_to_mm_rel pixel_size_mm originPx h ((i.dst.1 : ℤ), (i.dst.2 : ℤ))
  "G1 X" ++ fmt3 t.1 ++ " Y" ++ fmt3 t.2 ++ " F" ++ natStr i.speed ++ " S" ++ natStr i.power

/-- The four lines appended for one instruction (lines 297-307): positioning
move, `M3`, engraving move, `M5`. -/
def instructionGcode (originPx : ℤ × ℤ) (h : ℤ) (i : Instr) : List String :=
  [posLine originPx h i, "M3", engraveLine originPx h i, "M5"]

/-- `GCodeGenerator.convert_instructions_to_gcode` (lines 246-316): a single
leading `G90`, then the four-line block of every instruction of every row in
order. -/
def convert_instructions_to_gcode (all_instructions : List (List Instr))
    (originPx : ℤ × ℤ) (image_height_pixels : ℤ) : List String :=
  "G90" :: all_instructions.flatMap
    (fun row => row.flatMap (instructionGcode originPx image_height_pixels))

/-! ### Origin conversion and control flow of `SketchingStage.generate_gcode` -/

/-- Python's `int()` on a real value: truncation toward zero. -/
def pyInt (q : ℚ) : ℤ := if q < 0 then ⌈q⌉ else ⌊q⌋

/-- `pixels_per_mm = 1 / 0.072` (line 1011 of `sketching_stage.py`). -/
def pixels_per_mm : ℚ := 1 / pixel_size_mm

/-- The millimetre-to-pixel origin conversion of lines 1012-1015:
`(int(x_mm * pixels_per_mm), int(y_mm * pixels_per_mm))`. -/
def mm_to_pixel (x_mm y_mm : ℚ) : ℤ × ℤ :=
  (pyInt (x_mm * pixels_per_mm), pyInt (y_mm * pixels_per_mm))

/-- The power conversion of line 1021: `int((power_percent / 100.0) * 255)`. -/
def power_from_percent (power_percent : ℚ) : ℤ := pyInt (power_percent / 100 * 255)

/-- The observable outcome of one `SketchingStage.generate_gcode` call:
the message boxes shown, the exception (if any) that escapes to the caller,
and the G-code stream handed to the preview window (if any). -/
structure GenOutcome where
  warnings : List String
  raised : Option String
  stream : Option (List String)
  deriving Repr, DecidableEq

/-- `SketchingStage.generate_gcode` (lines 986-1055 of `sketching_stage.py`).
`origin_point` models `_find_origin_point()` (`none` when no origin object
exists), `exported` models `_export_temp_high_res_image()` (`none` when the
export failed, otherwise the fallible image load seen by the generator).
With no origin the method shows the "No Origin Found" warning and returns;
with a failed export it shows "Export Error" and returns; when the generator
returns `None` (it caught an image error and showed "Image Processing Error")
or an empty list, `if instructions:` is falsy and nothing further happens;
otherwise the instructions are converted and the stream is shown.  No path
raises an exception. -/
def generate_gcode_flow (origin_point : Option (ℚ × ℚ))
    (exported : Option (Except String (List (List Nat))))
    (image_height_pixels : ℤ) (laser_power travel_speed : Nat) : GenOutcome :=
  match origin_point with
  | none => ⟨["No Origin Found"], none, none⟩
  | some o =>
    match exported with
    | none => ⟨["Export Error"], none, none⟩
    | some img =>
      let origin_pixels := mm_to_pixel o.1 o.2
      match generate_instructions_from_image img laser_power travel_speed with
      | none => ⟨["Image Processing Error"], none, none⟩
      | some instructions =>
        if instructions.isEmpty then ⟨[], none, none⟩
        else ⟨[], none,
          some (convert_instructions_to_gcode instructions origin_pixels
            image_height_pixels)⟩

/-! ### Color flip (`SketchingStage._apply_color_flip`) -/

/-- `_apply_color_flip` (lines 1639-1666): `255 - img_array` on every sample. -/
def apply_color_flip (img : List (List Nat)) : List (List Nat) :=
  img.map (List.map (fun v => 255 - v))

/-- The flip step of the PostScript export path (lines 1767-1769):
`if self.flip_colors: high_res_image = self._apply_color_flip(high_res_image)`. -/
def export_postscript_flip (flip_colors : Bool) (img : List (List Nat)) :
    List (List Nat) :=
  if flip_colors then apply_color_flip img else img

/-- The flip step of the manual-drawing fallback export path (lines
1827-1829), identical in code to the PostScript one. -/
def export_fallback_flip (flip_colors : Bool) (img : List (List Nat)) :
    List (List Nat) :=
  if flip_colors then apply_color_flip img else img

/-! ### Evaluation lemmas

The assembler only ever formats rationals of the form `k * 0.072` with `k` an
integer; such a value is exactly `72 * k` thousandths.  These lemmas reduce
the `ℚ`-level definitions to integer computations. -/

lemma ratMilli_int_mul_pixel (k : ℤ) :
    ratMilli ((k : ℚ) * pixel_size_mm) = 72 * k := by
  have h : (k : ℚ) * pixel_size_mm * 1000 = ((72 * k : ℤ) : ℚ) := by
    unfold pixel_size_mm; push_cast; ring
  rw [ratMilli, h, round_intCast]

lemma pixel_to_mm_rel_pixel_size (o : ℤ × ℤ) (h : ℤ) (p : ℤ × ℤ) :
    pixel_to_mm_rel pixel_size_mm o h p
      = (((p.1 - o.1 : ℤ) : ℚ) * pixel_size_mm, ((o.2 - p.2 : ℤ) : ℚ) * pixel_size_mm) := by
  unfold pixel_to_mm_rel
  refine Prod.ext ?_ ?_ <;> push_cast <;> ring

lemma posLine_eval (o : ℤ × ℤ) (h : ℤ) (i : Instr) :
    posLine o h i
      = "G1 X" ++ fmt3Milli (72 * ((i.src.1 : ℤ) - o.1))
          ++ " Y" ++ fmt3Milli (72 * (o.2 - (i.src.2 : ℤ)))
          ++ " S" ++ natStr i.power := by
  unfold posLine
  rw [pixel_to_mm_rel_pixel_size]
  simp only [fmt3, ratMilli_int_mul_pixel]

lemma engraveLine_eval (o : ℤ × ℤ) (h : ℤ) (i : Instr) :
    engraveLine o h i
      = "G1 X" ++ fmt3Milli (72 * ((i.dst.1 : ℤ) - o.1))
          ++ " Y" ++ fmt3Milli (72 * (o.2 - (i.dst.2 : ℤ)))
          ++ " F" ++ natStr i.speed ++ " S" ++ natStr i.power := by
  unfold engraveLine
  rw [pixel_to_mm_rel_pixel_size]
  simp only [fmt3, ratMilli_int_mul_pixel]

/-! ### Invariants of the scanline extractor -/

/-- Number of laser-on cells still pending in the scan state. -/
def pendCells : Option Nat → Nat → Nat
  | none, _ => 0
  | some s, col => col - s

/-- Lower bound on every start column the scan can still emit. -/
def lowerCol : Option Nat → Nat → Nat
  | none, col => col
  | some s, _ => s

lemma scanRowGo_sum (row : List Bool) : ∀ (col : Nat) (st : Option Nat),
    (∀ s, st = some s → s ≤ col) →
    ((scanRowGo row col st).map (fun r => r.2 - r.1)).sum
      = row.count true + pendCells st col := by
  induction row with
  | nil =>
    intro col st h
    cases st with
    | none => simp [scanRowGo, pendCells]
    | some s => simp [scanRowGo, pendCells]
  | cons b rest ih =>
    intro col st h
    cases st with
    | none =>
      cases b with
      | true =>
        have hrec := ih (col + 1) (some col) (by intro s hs; cases hs; omega)
        simp only [scanRowGo, hrec, pendCells, List.count_cons]
        simp
      | false =>
        have hrec := ih (col + 1) none (by intro s hs; cases hs)
        simp only [scanRowGo, hrec, pendCells, List.count_cons]
        simp
    | some s =>
      have hs := h s rfl
      cases b with
      | true =>
        have hrec := ih (col + 1) (some s) (by intro t ht; cases ht; omega)
        simp only [scanRowGo, hrec, pendCells, List.count_cons]
        simp
        omega
      | false =>
        have hrec := ih (col + 1) none (by intro t ht; cases ht)
        simp only [scanRowGo, List.map_cons, List.sum_cons, hrec, pendCells,
          List.count_cons]
        simp
        omega

lemma scanRowGo_bounds (row : List Bool) : ∀ (col : Nat) (st : Option Nat),
    (∀ s, st = some s → s < col) →
    (∀ r ∈ scanRowGo row col st, lowerCol st col ≤ r.1 ∧ r.1 < r.2) ∧
      List.Pairwise (fun a b : Nat × Nat => a.2 ≤ b.1) (scanRowGo row col st) := by
  induction row with
  | nil =>
    intro col st h
    cases st with
    | none => simp [scanRowGo]
    | some s =>
      have := h s rfl
      simp [scanRowGo, lowerCol]
      omega
  | cons b rest ih =>
    intro col st h
    cases st with
    | none =>
      cases b with
      | true =>
        have hrec := ih (col + 1) (some col) (by intro s hs; cases hs; omega)
        simp only [scanRowGo]
        refine ⟨fun r hr => ?_, hrec.2⟩
        have := hrec.1 r hr
        simp only [lowerCol] at this ⊢
        omega
      | false =>
        have hrec := ih (col + 1) none (by intro s hs; cases hs)
        simp only [scanRowGo]
        refine ⟨fun r hr => ?_, hrec.2⟩
        have := hrec.1 r hr
        simp only [lowerCol] at this ⊢
        omega
    | some s =>
      have hs := h s rfl
      cases b with
      | true =>
        have hrec := ih (col + 1) (some s) (by intro t ht; cases ht; omega)
        simp only [scanRowGo]
        exact hrec
      | false =>
        have hrec := ih (col + 1) none (by intro t ht; cases ht)
        simp only [scanRowGo]
        constructor
        · intro r hr
          rcases List.mem_cons.1 hr with h1 | h1
          · subst h1; simp only [lowerCol]; omega
          · have := hrec.1 r h1
            simp only [lowerCol] at this ⊢
            omega
        · refine List.pairwise_cons.2 ⟨fun r hr => ?_, hrec.2⟩
          have := hrec.1 r hr
          simp only [lowerCol] at this
          omega

/-- The run lengths of a row sum to its number of `true` cells. -/
lemma scanRow_sum (row : List Bool) :
    ((scanRow row).map (fun r => r.2 - r.1)).sum = row.count true := by
  have := scanRowGo_sum row 0 none (by intro s hs; cases hs)
  simpa [scanRow, pendCells] using this

/-- Runs are non-degenerate and pairwise disjoint in increasing order. -/
lemma scanRow_bounds (row : List Bool) :
    (∀ r ∈ scanRow row, r.1 < r.2) ∧
      List.Pairwise (fun a b : Nat × Nat => a.2 ≤ b.1) (scanRow row) := by
  have h := scanRowGo_bounds row 0 none (by intro s hs; cases hs)
  exact ⟨fun r hr => (h.1 r hr).2, h.2⟩

/-- An all-`false` row produces no runs. -/
lemma scanRowGo_all_false (row : List Bool) (hrow : ∀ c ∈ row, c = false) :
    ∀ col, scanRowGo row col none = [] := by
  induction row with
  | nil => intro col; simp [scanRowGo]
  | cons b rest ih =>
    intro col
    have hb : b = false := hrow b (List.mem_cons_self b rest)
    subst hb
    simp only [scanRowGo]
    exact ih (fun c hc => hrow c (List.mem_cons_of_mem _ hc)) (col + 1)

/-! ### Shape of the emitted G-code stream -/

lemma posLine_length (o : ℤ × ℤ) (h : ℤ) (i : Instr) : 4 ≤ (posLine o h i).length := by
  have h4 : ("G1 X" : String).length = 4 := by decide
  simp only [posLine, String.length_append]
  omega

lemma engraveLine_length (o : ℤ × ℤ) (h : ℤ) (i : Instr) :
    4 ≤ (engraveLine o h i).length := by
  have h4 : ("G1 X" : String).length = 4 := by decide
  simp only [engraveLine, String.length_append]
  omega

lemma posLine_ne_M3 (o : ℤ × ℤ) (h : ℤ) (i : Instr) : posLine o h i ≠ "M3" := by
  intro e
  have hl := congrArg String.length e
  have := posLine_length o h i
  have h2 : ("M3" : String).length = 2 := by decide
  omega

lemma posLine_ne_M5 (o : ℤ × ℤ) (h : ℤ) (i : Instr) : posLine o h i ≠ "M5" := by
  intro e
  have hl := congrArg String.length e
  have := posLine_length o h i
  have h2 : ("M5" : String).length = 2 := by decide
  omega

lemma posLine_ne_G90 (o : ℤ × ℤ) (h : ℤ) (i : Instr) : posLine o h i ≠ "G90" := by
  intro e
  have hl := congrArg String.length e
  have := posLine_length o h i
  have h2 : ("G90" : String).length = 3 := by decide
  omega

lemma engraveLine_ne_M3 (o : ℤ × ℤ) (h : ℤ) (i : Instr) : engraveLine o h i ≠ "M3" := by
  intro e
  have hl := congrArg String.length e
  have := engraveLine_length o h i
  have h2 : ("M3" : String).length = 2 := by decide
  omega

lemma engraveLine_ne_M5 (o : ℤ × ℤ) (h : ℤ) (i : Instr) : engraveLine o h i ≠ "M5" := by
  intro e
  have hl := congrArg String.length e
  have := engraveLine_length o h i
  have h2 : ("M5" : String).length = 2 := by decide
  omega

lemma engraveLine_ne_G90 (o : ℤ × ℤ) (h : ℤ) (i : Instr) : engraveLine o h i ≠ "G90" := by
  intro e
  have hl := congrArg String.length e
  have := engraveLine_length o h i
  have h2 : ("G90" : String).length = 3 := by decide
  omega

/-- The stream in flattened normal form: a single `G90` followed by the
four-line blocks of the instructions in extractor order. -/
lemma convert_eq_flatten (all : List (List Instr)) (o : ℤ × ℤ) (h : ℤ) :
    convert_instructions_to_gcode all o h
      = "G90" :: all.flatten.flatMap (instructionGcode o h) := by
  unfold convert_instructions_to_gcode
  congr 1
  induction all with
  | nil => simp
  | cons r t ih => simp [List.flatMap_cons, List.flatten_cons, List.flatMap_append, ih]

lemma count_block_M3 (o : ℤ × ℤ) (h : ℤ) (i : Instr) :
    (instructionGcode o h i).count "M3" = 1 := by
  have h1 : (posLine o h i == "M3") = false :=
    beq_eq_false_iff_ne.2 (posLine_ne_M3 o h i)
  have h2 : (engraveLine o h i == "M3") = false :=
    beq_eq_false_iff_ne.2 (engraveLine_ne_M3 o h i)
  simp [instructionGcode, List.count_cons, h1, h2]

lemma count_block_M5 (o : ℤ × ℤ) (h : ℤ) (i : Instr) :
    (instructionGcode o h i).count "M5" = 1 := by
  have h1 : (posLine o h i == "M5") = false :=
    beq_eq_false_iff_ne.2 (posLine_ne_M5 o h i)
  have h2 : (engraveLine o h i == "M5") = false :=
    beq_eq_false_iff_ne.2 (engraveLine_ne_M5 o h i)
  simp [instructionGcode, List.count_cons, h1, h2]

lemma count_block_G90 (o : ℤ × ℤ) (h : ℤ) (i : Instr) :
    (instructionGcode o h i).count "G90" = 0 := by
  have h1 : (posLine o h i == "G90") = false :=
    beq_eq_false_iff_ne.2 (posLine_ne_G90 o h i)
  have h2 : (engraveLine o h i == "G90") = false :=
    beq_eq_false_iff_ne.2 (engraveLine_ne_G90 o h i)
  simp [instructionGcode, List.count_cons, h1, h2]

lemma count_flatMap_M3 (o : ℤ × ℤ) (h : ℤ) (l : List Instr) :
    (l.flatMap (instructionGcode o h)).count "M3" = l.length := by
  induction l with
  | nil => simp
  | cons i t ih =>
    simp [List.flatMap_cons, List.count_append, count_block_M3, ih]
    omega

lemma count_flatMap_M5 (o : ℤ × ℤ) (h : ℤ) (l : List Instr) :
    (l.flatMap (instructionGcode o h)).count "M5" = l.length := by
  induction l with
  | nil => simp
  | cons i t ih =>
    simp [List.flatMap_cons, List.count_append, count_block_M5, ih]
    omega

lemma count_flatMap_G90 (o : ℤ × ℤ) (h : ℤ) (l : List Instr) :
    (l.flatMap (instructionGcode o h)).count "G90" = 0 := by
  induction l with
  | nil => simp
  | cons i t ih => simp [List.flatMap_cons, List.count_append, count_block_G90, ih]

lemma length_flatMap_blocks (o : ℤ × ℤ) (h : ℤ) (l : List Instr) :
    (l.flatMap (instructionGcode o h)).length = 4 * l.length := by
  induction l with
  | nil => simp
  | cons i t ih =>
    simp [List.flatMap_cons, instructionGcode, ih]
    omega

lemma filter_block_laser (o : ℤ × ℤ) (h : ℤ) (i : Instr) :
    (instructionGcode o h i).filter (fun s => s == "M3" || s == "M5")
      = ["M3", "M5"] := by
  have h1 : (posLine o h i == "M3") = false :=
    beq_eq_false_iff_ne.2 (posLine_ne_M3 o h i)
  have h2 : (posLine o h i == "M5") = false :=
    beq_eq_false_iff_ne.2 (posLine_ne_M5 o h i)
  have h3 : (engraveLine o h i == "M3") = false :=
    beq_eq_false_iff_ne.2 (engraveLine_ne_M3 o h i)
  have h4 : (engraveLine o h i == "M5") = false :=
    beq_eq_false_iff_ne.2 (engraveLine_ne_M5 o h i)
  simp [instructionGcode, List.filter, h1, h2, h3, h4]

lemma filter_flatMap_laser (o : ℤ × ℤ) (h : ℤ) (l : List Instr) :
    (l.flatMap (instructionGcode o h)).filter (fun s => s == "M3" || s == "M5")
      = (List.replicate l.length ["M3", "M5"]).flatten := by
  induction l with
  | nil => simp
  | cons i t ih =>
    simp only [List.flatMap_cons, List.filter_append, filter_block_laser, ih,
      List.length_cons, List.replicate_succ, List.flatten_cons]

/-- In `prev :: blocks`, every element equal to `"M3"` is immediately preceded
by the positioning move of some emitted instruction. -/
lemma zip_blocks_M3 (o : ℤ × ℤ) (h : ℤ) (l : List Instr) :
    ∀ prev : String,
      ∀ p ∈ (prev :: l.flatMap (instructionGcode o h)).zip
          (l.flatMap (instructionGcode o h)),
        p.2 = "M3" → ∃ i ∈ l, p.1 = posLine o h i := by
  induction l with
  | nil => simp
  | cons i t ih =>
    intro prev p hp hm
    simp only [List.flatMap_cons, instructionGcode, List.cons_append, List.nil_append,
      List.zip_cons_cons, List.mem_cons] at hp
    rcases hp with e | e | e | e | e
    · exfalso
      rw [e] at hm
      exact posLine_ne_M3 o h i hm
    · refine ⟨i, List.mem_cons_self i t, ?_⟩
      rw [e]
    · exfalso
      rw [e] at hm
      exact engraveLine_ne_M3 o h i hm
    · exfalso
      rw [e] at hm
      simp at hm
    · obtain ⟨j, hj, hpj⟩ := ih "M5" p e hm
      exact ⟨j, List.mem_cons_of_mem i hj, hpj⟩

/-! ### Digit-shape lemmas for the formatter -/

lemma digitChar_isDigit (n : Nat) (h : n < 10) : (Nat.digitChar n).isDigit = true := by
  interval_cases n <;> decide

lemma natDigitsAux_digits : ∀ (fuel n : Nat), ∀ c ∈ natDigitsAux fuel n,
    c.isDigit = true := by
  intro fuel
  induction fuel with
  | zero => intro n c hc; simp [natDigitsAux] at hc
  | succ f ih =>
    intro n c hc
    by_cases h : n < 10
    · simp only [natDigitsAux, if_pos h, List.mem_singleton] at hc
      subst hc
      exact digitChar_isDigit n h
    · simp only [natDigitsAux, if_neg h, List.mem_append, List.mem_singleton] at hc
      rcases hc with hc | hc
      · exact ih (n / 10) c hc
      · subst hc
        exact digitChar_isDigit (n % 10) (Nat.mod_lt n (by omega))

lemma natDigits_digits (n : Nat) : ∀ c ∈ natDigits n, c.isDigit = true :=
  natDigitsAux_digits (n + 1) n

lemma fmt3Frac_length (m : ℤ) : (fmt3Frac m).length = 3 := rfl

lemma fmt3Frac_digits (m : ℤ) : ∀ c ∈ (fmt3Frac m).data, c.isDigit = true := by
  intro c hc
  simp only [fmt3Frac, String.mk, List.mem_cons, List.not_mem_nil, or_false] at hc
  rcases hc with hc | hc | hc <;> subst hc <;>
    exact digitChar_isDigit _ (Nat.mod_lt _ (by omega))

lemma fmt3Int_digits (m : ℤ) : ∀ c ∈ (fmt3Int m).data, c.isDigit = true := by
  intro c hc
  simp only [fmt3Int, String.mk] at hc
  exact natDigits_digits _ c hc

/-! ### Blank-input lemmas -/

lemma rowInstructions_all_false (idx p s : Nat) (row : List Bool)
    (hrow : ∀ c ∈ row, c = false) : rowInstructions idx p s row = [] := by
  unfold rowInstructions scanRow
  rw [scanRowGo_all_false row hrow 0]
  rfl

lemma scanRows_all_false (p s : Nat) :
    ∀ (m : List (List Bool)), (∀ row ∈ m, ∀ c ∈ row, c = false) →
      ∀ idx, scanRows idx p s m = [] := by
  intro m
  induction m with
  | nil => intro _ idx; rfl
  | cons row rest ih =>
    intro h idx
    have hrow : rowInstructions idx p s row = [] :=
      rowInstructions_all_false idx p s row (h row (List.mem_cons_self row rest))
    simp only [scanRows, hrow, List.isEmpty_nil, if_pos]
    exact ih (fun r hr => h r (List.mem_cons_of_mem _ hr)) (idx + 1)

/-! ### Claim theorems -/

/-- C1: for every binary matrix row the scanline extractor emits exactly the
maximal runs of 1-cells as end-exclusive `(start, end)` pairs in left-to-right
order: `[0,1,1,0,1,0,0,1,1,1]` yields `(1,3), (4,5), (7,10)`; a row that ends
inside a run closes it at the row width, so `[0,0,1,1,1]` yields `(2,5)`; and
for every row the run lengths sum to the number of 1-cells, the runs are
pairwise disjoint, and they are sorted by start column. -/
theorem C1_run_extraction :
    scanRow [false, true, true, false, true, false, false, true, true, true]
        = [(1, 3), (4, 5), (7, 10)] ∧
    scanRow [false, false, true, true, true] = [(2, 5)] ∧
    ∀ row : List Bool,
      ((scanRow row).map (fun r => r.2 - r.1)).sum = row.count true ∧
      (∀ r ∈ scanRow row, r.1 < r.2) ∧
      List.Pairwise (fun a b : Nat × Nat => a.2 ≤ b.1) (scanRow row) ∧
      List.Pairwise (fun a b : Nat × Nat => a.1 < b.1) (scanRow row) := by
  refine ⟨by decide, by decide, fun row => ⟨scanRow_sum row, (scanRow_bounds row).1,
    (scanRow_bounds row).2, ?_⟩⟩
  refine (scanRow_bounds row).2.imp_of_mem ?_
  intro a b ha _ hab
  have := (scanRow_bounds row).1 a ha
  omega

/-- Witness for C1 at the concrete row `[0,0,1,1,1]` and its run `(2,5)`. -/
theorem C1_run_extraction_witness :
    ((scanRow [false, false, true, true, true]).map (fun r => r.2 - r.1)).sum
        = [false, false, true, true, true].count true ∧
    (2, 5) ∈ scanRow [false, false, true, true, true] ∧ (2, 5).1 < (2, 5).2 :=
  ⟨(C1_run_extraction.2.2 _).1, by decide,
    (C1_run_extraction.2.2 [false, false, true, true, true]).2.1 (2, 5) (by decide)⟩

/-- C4: the assembler's pixel-to-millimetre transform (flip the row as
`H - 1 - row`, subtract the similarly flipped origin row and the raw origin
column, multiply by the scale) maps the origin pixel itself to exactly
`(0, 0)` mm; with the origin in the bottom row, a run at row `H - 1` maps to
relative Y `0` and a run at row `0` maps to the maximum relative Y,
`(H - 1) * S`. -/
theorem C4_coordinate_transform (S : ℚ) (H ox oy c r : ℤ) :
    pixel_to_mm_rel S (ox, oy) H (ox, oy) = (0, 0) ∧
    (pixel_to_mm_rel S (ox, H - 1) H (c, H - 1)).2 = 0 ∧
    (pixel_to_mm_rel S (ox, H - 1) H (c, 0)).2 = ((H : ℚ) - 1) * S ∧
    (0 ≤ S → 0 ≤ r → r ≤ H - 1 →
      (pixel_to_mm_rel S (ox, H - 1) H (c, r)).2
        ≤ (pixel_to_mm_rel S (ox, H - 1) H (c, 0)).2) := by
  refine ⟨?_, ?_, ?_, ?_⟩
  · unfold pixel_to_mm_rel
    refine Prod.ext ?_ ?_ <;> simp
  · unfold pixel_to_mm_rel
    simp
  · unfold pixel_to_mm_rel
    push_cast
    ring
  · intro hS hr hrH
    unfold pixel_to_mm_rel
    dsimp only
    refine mul_le_mul_of_nonneg_right ?_ hS
    have : (H - 1 - r - (H - 1 - (H - 1)) : ℤ) ≤ (H - 1 - 0 - (H - 1 - (H - 1)) : ℤ) := by
      omega
    exact_mod_cast this

/-- Witness for C4 at `S = 1`, `H = 3`, origin pixel `(0, 2)`, run row `1`. -/
theorem C4_coordinate_transform_witness :
    pixel_to_mm_rel 1 (0, 2) 3 (0, 2) = (0, 0) ∧
    (pixel_to_mm_rel 1 (0, 2) 3 (5, 1)).2 ≤ (pixel_to_mm_rel 1 (0, 2) 3 (5, 0)).2 :=
  ⟨(C4_coordinate_transform 1 3 0 2 5 1).1,
    by
      have h := (C4_coordinate_transform 1 3 0 2 5 1).2.2.2 (by norm_num) (by norm_num)
        (by norm_num)
      simpa using h⟩

/-- C7: a blank binary matrix (all cells false), a matrix with zero rows, and
a matrix with zero columns all make the extractor return an empty instruction
list; an all-white grayscale image yields `some []` (a valid empty result,
not the error value `none`), and an empty instruction list is harmless
downstream (the assembler produces just the `G90` preamble). -/
theorem C7_blank_input (p s : Nat) (o : ℤ × ℤ) (hgt : ℤ) :
    generate_instructions [] p s = [] ∧
    (∀ n : Nat, generate_instructions (List.replicate n []) p s = []) ∧
    (∀ m : List (List Bool), (∀ row ∈ m, ∀ c ∈ row, c = false) →
      generate_instructions m p s = []) ∧
    (∀ img : List (List Nat), (∀ row ∈ img, ∀ v ∈ row, 128 ≤ v) →
      generate_instructions_from_image (Except.ok img) p s = some []) ∧
    convert_instructions_to_gcode [] o hgt = ["G90"] := by
  refine ⟨rfl, ?_, ?_, ?_, rfl⟩
  · intro n
    refine scanRows_all_false p s _ ?_ 0
    intro row hr c hc
    rw [List.eq_of_mem_replicate hr] at hc
    simp at hc
  · intro m hm
    exact scanRows_all_false p s m hm 0
  · intro img himg
    have hall : ∀ row ∈ binarize img, ∀ c ∈ row, c = false := by
      intro row hr c hc
      simp only [binarize, List.mem_map] at hr
      obtain ⟨row0, hrow0, hrow0e⟩ := hr
      subst hrow0e
      obtain ⟨v, hv, hve⟩ := List.mem_map.1 hc
      subst hve
      have := himg row0 hrow0 v hv
      simp only [binarizeCell, decide_eq_false_iff_not]
      omega
    show some (generate_instructions (binarize img) p s) = some []
    unfold generate_instructions
    rw [scanRows_all_false p s _ hall 0]

/-- Witness for C7 on a concrete 2×2 blank matrix and all-white image. -/
theorem C7_blank_input_witness :
    generate_instructions [[false, false], [false, false]] 255 1000 = [] ∧
    generate_instructions_from_image
        (Except.ok [[255, 255], [255, 255]]) 255 1000 = some [] :=
  ⟨(C7_blank_input 255 1000 (0, 0) 0).2.2.1 _ (by decide),
    (C7_blank_input 255 1000 (0, 0) 0).2.2.2.1 _ (by decide)⟩

/-- C9: inverting an 8-bit intensity before thresholding gives exactly the
negated cell of direct thresholding (`255 - v < 128` iff `not (v < 128)`),
and with the flip-colors toggle enabled the inversion `_apply_color_flip` is
applied to the final exported raster before binarization in both the
PostScript export path and the manual-drawing fallback path. -/
theorem C9_flip_threshold :
    (∀ v : Nat, binarizeCell (255 - v) = !binarizeCell v) ∧
    (∀ img : List (List Nat),
      binarize (apply_color_flip img) = (binarize img).map (List.map (fun b => !b))) ∧
    (∀ img : List (List Nat), export_postscript_flip true img = apply_color_flip img) ∧
    (∀ img : List (List Nat), export_fallback_flip true img = apply_color_flip img) ∧
    (∀ img : List (List Nat), export_postscript_flip false img = img) ∧
    (∀ img : List (List Nat), export_fallback_flip false img = img) := by
  have hcell : ∀ v : Nat, binarizeCell (255 - v) = !binarizeCell v := by
    intro v
    unfold binarizeCell
    by_cases h : v < 128
    · rw [decide_eq_true h, decide_eq_false (by omega : ¬(255 - v < 128))]
      rfl
    · rw [decide_eq_false h, decide_eq_true (by omega : 255 - v < 128)]
      rfl
  refine ⟨hcell, ?_, fun _ => rfl, fun _ => rfl, fun _ => rfl, fun _ => rfl⟩
  intro img
  unfold binarize apply_color_flip
  rw [List.map_map, List.map_map]
  refine List.map_congr_left ?_
  intro row _
  dsimp only [Function.comp]
  rw [List.map_map, List.map_map]
  refine List.map_congr_left ?_
  intro v _
  exact hcell v

/-- C2: for every instruction list, the G-code stream has exactly one `M3`
and one `M5` per run (so their counts equal the number of runs), the `M3` and
`M5` tokens strictly alternate starting with `M3`, every `M3` is immediately
preceded by a positioning move, and the runs appear in the output in the
extractor's emission order (the stream is exactly `G90` followed by each
run's four-line block in order). -/
theorem C2_laser_bracketing (all : List (List Instr)) (o : ℤ × ℤ) (h : ℤ) :
    (convert_instructions_to_gcode all o h).count "M3" = all.flatten.length ∧
    (convert_instructions_to_gcode all o h).count "M5" = all.flatten.length ∧
    (convert_instructions_to_gcode all o h).filter (fun s => s == "M3" || s == "M5")
      = (List.replicate all.flatten.length ["M3", "M5"]).flatten ∧
    (∀ p ∈ (convert_instructions_to_gcode all o h).zip
        (convert_instructions_to_gcode all o h).tail,
      p.2 = "M3" → ∃ i ∈ all.flatten, p.1 = posLine o h i) ∧
    convert_instructions_to_gcode all o h
      = "G90" :: all.flatten.flatMap (instructionGcode o h) := by
  have hc := convert_eq_flatten all o h
  have hg3 : (("G90" : String) == "M3") = false := by decide
  have hg5 : (("G90" : String) == "M5") = false := by decide
  refine ⟨?_, ?_, ?_, ?_, hc⟩
  · rw [hc]
    simp [List.count_cons, hg3, count_flatMap_M3]
  · rw [hc]
    simp [List.count_cons, hg5, count_flatMap_M5]
  · rw [hc]
    rw [List.filter_cons]
    simp only [hg3, hg5, Bool.or_self, if_false]
    exact filter_flatMap_laser o h all.flatten
  · rw [hc]
    intro p hp
    exact zip_blocks_M3 o h all.flatten "G90" p (by simpa using hp)

/-- Witness for C2 on the single instruction `((0,0),(2,0),255,1000)`. -/
theorem C2_laser_bracketing_witness :
    (convert_instructions_to_gcode [[((0, 0), (2, 0), 255, 1000)]] (0, 0) 2).count "M3" = 1 ∧
    ∃ i ∈ ([[((0, 0), (2, 0), 255, 1000)]] : List (List Instr)).flatten,
      posLine (0, 0) 2 ((0, 0), (2, 0), 255, 1000) = posLine (0, 0) 2 i := by
  have h := C2_laser_bracketing [[((0, 0), (2, 0), 255, 1000)]] (0, 0) 2
  refine ⟨by simpa using h.1, ?_⟩
  refine h.2.2.2.1 (posLine (0, 0) 2 ((0, 0), (2, 0), 255, 1000), "M3") ?_ rfl
  rw [h.2.2.2.2]
  simp [instructionGcode]

/-- C5: the first line of every stream is `G90`, emitted exactly once; each
run contributes exactly its four-line template and the stream has
`1 + 4 * runs` lines; every formatted coordinate has exactly three decimal
digits after the decimal point (and only digits around it); and the
percent-to-power conversion lands in 0–255 for percentages in 0–100. -/
theorem C5_stream_template (all : List (List Instr)) (o : ℤ × ℤ) (h : ℤ) :
    (convert_instructions_to_gcode all o h).head? = some "G90" ∧
    (convert_instructions_to_gcode all o h).count "G90" = 1 ∧
    (convert_instructions_to_gcode all o h).length = 1 + 4 * all.flatten.length ∧
    (∀ i ∈ all.flatten, instructionGcode o h i
        = [posLine o h i, "M3", engraveLine o h i, "M5"]) ∧
    (∀ q : ℚ, fmt3 q = fmt3Sign (ratMilli q) ++ fmt3Int (ratMilli q) ++ "."
          ++ fmt3Frac (ratMilli q) ∧
        (fmt3Frac (ratMilli q)).length = 3 ∧
        (∀ c ∈ (fmt3Frac (ratMilli q)).data, c.isDigit = true) ∧
        (∀ c ∈ (fmt3Int (ratMilli q)).data, c.isDigit = true)) ∧
    (∀ pct : ℚ, 0 ≤ pct → pct ≤ 100 →
      0 ≤ power_from_percent pct ∧ power_from_percent pct ≤ 255) := by
  have hc := convert_eq_flatten all o h
  have hg : (("G90" : String) == "G90") = true := by decide
  refine ⟨?_, ?_, ?_, fun i _ => rfl, ?_, ?_⟩
  · rw [hc]
    rfl
  · rw [hc]
    simp [List.count_cons, hg, count_flatMap_G90]
  · rw [hc]
    simp only [List.length_cons, length_flatMap_blocks]
    omega
  · intro q
    exact ⟨rfl, fmt3Frac_length _, fmt3Frac_digits _, fmt3Int_digits _⟩
  · intro pct h0 h100
    unfold power_from_percent pyInt
    have hx0 : (0 : ℚ) ≤ pct / 100 * 255 :=
      mul_nonneg (div_nonneg h0 (by norm_num)) (by norm_num)
    have h1 : pct / 100 ≤ 1 := (div_le_one (by norm_num)).2 h100
    have hx255 : pct / 100 * 255 ≤ 255 := by nlinarith
    rw [if_neg (not_lt.2 hx0)]
    constructor
    · exact Int.le_floor.2 (by exact_mod_cast hx0)
    · have hf : ((⌊pct / 100 * 255⌋ : ℤ) : ℚ) ≤ pct / 100 * 255 := Int.floor_le _
      exact_mod_cast hf.trans hx255

/-- Witness for C5 at a one-instruction stream and `pct = 100`. -/
theorem C5_stream_template_witness :
    (convert_instructions_to_gcode [[((0, 0), (2, 0), 255, 1000)]] (0, 0) 2).length = 5 ∧
    (fmt3Frac (ratMilli 0)).length = 3 ∧
    0 ≤ power_from_percent 100 ∧ power_from_percent 100 ≤ 255 := by
  have h := C5_stream_template [[((0, 0), (2, 0), 255, 1000)]] (0, 0) 2
  exact ⟨by simpa using h.2.2.1, (h.2.2.2.2.1 0).2.1,
    (h.2.2.2.2.2 100 (by norm_num) (by norm_num)).1,
    (h.2.2.2.2.2 100 (by norm_num) (by norm_num)).2⟩

/-- Evaluation of the full pipeline on the 4×2 matrix `[[1,1,0,0],[0,1,1,1]]`
with origin pixel `(0,0)`, image height 2, power 255, speed 1000. -/
lemma pipeline_4x2_eval :
    convert_instructions_to_gcode
        (generate_instructions [[true, true, false, false], [false, true, true, true]] 255 1000)
        (0, 0) 2
      = ["G90", "G1 X0.000 Y0.000 S255", "M3", "G1 X0.144 Y0.000 F1000 S255", "M5",
         "G1 X0.072 Y-0.072 S255", "M3", "G1 X0.288 Y-0.072 F1000 S255", "M5"] := by
  have h : generate_instructions [[true, true, false, false], [false, true, true, true]] 255 1000
      = [[((0, 0), (2, 0), 255, 1000)], [((1, 1), (4, 1), 255, 1000)]] := by decide
  rw [h]
  simp only [convert_instructions_to_gcode, instructionGcode, List.flatMap_cons,
    List.flatMap_nil, List.flatMap_append, posLine_eval, engraveLine_eval]
  decide

/-- C3 counterexample: the pipeline does not produce the claimed 9-line
stream on the stated input — the assembler hardcodes 0.072 mm/pixel (there is
no scale parameter to set to 1.0) and computes the relative Y of a run as
`origin_row - run_row`, so with origin pixel `(0,0)` the second line is
`G1 X0.000 Y0.000 S255`, not `G1 X0.000 Y1.000 S255`. -/
theorem C3_end_to_end_counterexample :
    convert_instructions_to_gcode
        (generate_instructions [[true, true, false, false], [false, true, true, true]] 255 1000)
        (0, 0) 2
      ≠ ["G90", "G1 X0.000 Y1.000 S255", "M3", "G1 X2.000 Y1.000 F1000 S255", "M5",
         "G1 X1.000 Y0.000 S255", "M3", "G1 X4.000 Y0.000 F1000 S255", "M5"] := by
  rw [pipeline_4x2_eval]
  decide

/-- C3 amended: on the 4×2 matrix `[[1,1,0,0],[0,1,1,1]]` with origin at
pixel `(0,0)`, image height 2, power 255 and speed 1000, the pipeline (which
hardcodes the scale 0.072 mm/pixel and measures Y relative to the origin row)
produces exactly the 9-line stream `G90`, `G1 X0.000 Y0.000 S255`, `M3`,
`G1 X0.144 Y0.000 F1000 S255`, `M5`, `G1 X0.072 Y-0.072 S255`, `M3`,
`G1 X0.288 Y-0.072 F1000 S255`, `M5`. -/
theorem C3_end_to_end_amended :
    convert_instructions_to_gcode
        (generate_instructions [[true, true, false, false], [false, true, true, true]] 255 1000)
        (0, 0) 2
      = ["G90", "G1 X0.000 Y0.000 S255", "M3", "G1 X0.144 Y0.000 F1000 S255", "M5",
         "G1 X0.072 Y-0.072 S255", "M3", "G1 X0.288 Y-0.072 F1000 S255", "M5"] :=
  pipeline_4x2_eval

/-- C6 counterexample: with no origin set the generation method raises
nothing at all — it shows the "No Origin Found" warning dialog and returns
with no output — so no `MissingOriginError` (which does not exist anywhere in
the code base) reaches the caller. -/
theorem C6_missing_origin_counterexample :
    (generate_gcode_flow none (some (Except.ok [[0]])) 1 255 1000).raised = none ∧
    (generate_gcode_flow none (some (Except.ok [[0]])) 1 255 1000).stream = none ∧
    (generate_gcode_flow none (some (Except.ok [[0]])) 1 255 1000).warnings
      = ["No Origin Found"] :=
  ⟨rfl, rfl, rfl⟩

/-- C6 amended: with no origin set the pipeline refuses to run and produces
zero output lines, never defaulting the origin to `(0,0)`; but the failure is
signalled by a "No Origin Found" warning dialog and an early return, not by
raising a `MissingOriginError` (no such error exists in the code). -/
theorem C6_missing_origin_amended (exported : Option (Except String (List (List Nat))))
    (H : ℤ) (p s : Nat) :
    generate_gcode_flow none exported H p s
      = { warnings := ["No Origin Found"], raised := none, stream := none } :=
  rfl

/-- C8 counterexample: at 0.12 mm the origin conversion yields pixel 1
(truncation of 0.12/0.072 = 5/3 toward zero), while rounding to the nearest
integer as claimed would yield 2. -/
theorem C8_rounding_counterexample :
    mm_to_pixel (12 / 100) (12 / 100) = (1, 1) ∧
    round ((12 / 100 : ℚ) / pixel_size_mm) = 2 ∧
    mm_to_pixel (12 / 100) (12 / 100)
      ≠ (round ((12 / 100 : ℚ) / pixel_size_mm), round ((12 / 100 : ℚ) / pixel_size_mm)) := by
  have hval : (12 / 100 : ℚ) * pixels_per_mm = 5 / 3 := by
    norm_num [pixels_per_mm, pixel_size_mm]
  have hfloor : ⌊(5 / 3 : ℚ)⌋ = 1 := by
    rw [Int.floor_eq_iff]
    norm_num
  have h1 : mm_to_pixel (12 / 100) (12 / 100) = (1, 1) := by
    unfold mm_to_pixel pyInt
    rw [hval, if_neg (by norm_num : ¬(5 / 3 : ℚ) < 0), hfloor]
  have hval2 : (12 / 100 : ℚ) / pixel_size_mm = 5 / 3 := by
    norm_num [pixel_size_mm]
  have h2 : round ((12 / 100 : ℚ) / pixel_size_mm) = 2 := by
    rw [hval2, round_eq, show (5 / 3 : ℚ) + 1 / 2 = 13 / 6 by norm_num,
      Int.floor_eq_iff]
    norm_num
  refine ⟨h1, h2, ?_⟩
  rw [h1, h2]
  decide

/-- C8 amended: the millimetre-to-pixel conversion truncates toward zero
(Python `int()`); for nonnegative coordinates this is the floor of
`x / 0.072`, which satisfies the floor bracketing and can differ from the
nearest integer. -/
theorem C8_mm_to_pixel_amended (x y : ℚ) (hx : 0 ≤ x) (hy : 0 ≤ y) :
    mm_to_pixel x y = (⌊x / pixel_size_mm⌋, ⌊y / pixel_size_mm⌋) ∧
    (⌊x / pixel_size_mm⌋ : ℚ) ≤ x / pixel_size_mm ∧
    x / pixel_size_mm < ⌊x / pixel_size_mm⌋ + 1 := by
  have hmul : ∀ z : ℚ, z * pixels_per_mm = z / pixel_size_mm := by
    intro z
    rw [pixels_per_mm, mul_one_div]
  have hpos : (0 : ℚ) < pixel_size_mm := by norm_num [pixel_size_mm]
  have hx' : ¬ x / pixel_size_mm < 0 := not_lt.2 (div_nonneg hx hpos.le)
  have hy' : ¬ y / pixel_size_mm < 0 := not_lt.2 (div_nonneg hy hpos.le)
  refine ⟨?_, Int.floor_le _, Int.lt_floor_add_one _⟩
  unfold mm_to_pixel pyInt
  rw [hmul, hmul, if_neg hx', if_neg hy']

/-- Witness for the amended C8 at `x = y = 0.12` mm. -/
theorem C8_mm_to_pixel_amended_witness :
    (0 : ℚ) ≤ 12 / 100 ∧
    mm_to_pixel (12 / 100) (12 / 100)
      = (⌊(12 / 100 : ℚ) / pixel_size_mm⌋, ⌊(12 / 100 : ℚ) / pixel_size_mm⌋) :=
  ⟨by norm_num, (C8_mm_to_pixel_amended (12 / 100) (12 / 100) (by norm_num) (by norm_num)).1⟩

/-- C10 counterexample: an image-decoding failure is not propagated to the
caller — the generator catches it, shows the "Image Processing Error" dialog
itself, and returns `None`; two different errors are indistinguishable to the
caller, and nothing is raised out of the generation method. -/
theorem C10_error_propagation_counterexample :
    generate_instructions_from_image (Except.error "cannot identify image file") 255 1000
      = none ∧
    generate_instructions_from_image (Except.error "cannot identify image file") 255 1000
      = generate_instructions_from_image (Except.error "different error") 255 1000 ∧
    (generate_gcode_flow (some (0, 0)) (some (Except.error "cannot identify image file"))
        2 255 1000).raised = none ∧
    (generate_gcode_flow (some (0, 0)) (some (Except.error "cannot identify image file"))
        2 255 1000).warnings = ["Image Processing Error"] :=
  ⟨rfl, rfl, rfl, rfl⟩

/-- C10 amended: when the source image cannot be decoded, the pipeline
produces no partial output — `generate_instructions_from_image` returns
`None` for every error — but the error is absorbed inside the pipeline (an
error dialog is shown there and nothing is raised or propagated to the
caller, who silently does nothing with the `None`). -/
theorem C10_error_absorbed_amended (msg : String) (p s : Nat) (H : ℤ)
    (origin : ℚ × ℚ) :
    generate_instructions_from_image (Except.error msg) p s = none ∧
    generate_gcode_flow (some origin) (some (Except.error msg)) H p s
      = { warnings := ["Image Processing Error"], raised := none, stream := none } :=
  ⟨rfl, rfl⟩

end G2Mark
